import Mathlib

/-!
# Verification of the Terabox-Drive link bot pipeline

Shallow embedding of the pure fragments of the repository's Python code:
the link classifier and filename sanitizer (`utils/helpers.py`), the
Terabox URL normalizer and the synchronous download routine
(`utils/downloader.py`), the progress rate limiter and ETA computation
(`utils/progress.py`, `utils/uploader.py`), the per-user quota store
(`database/users.py`), the upload/delivery shape selection
(`utils/uploader.py`) and the per-message charging loops
(`handlers/link_handler.py`, `handlers/file_handler.py`).

Strings are modelled as `List Char`; machine-level details that the
claims do not touch (network transport, event loop, message editing) are
abstracted as explicit input data.
-/

set_option maxHeartbeats 1000000
set_option maxRecDepth 10000

/-! ## Basic string utilities (Python `in`, `.lower()`, `.strip()`) -/

/-- Python substring test `needle in hay` on character lists. -/
def containsSub (hay needle : List Char) : Bool :=
  match hay with
  | [] => needle.isEmpty
  | _ :: t => needle.isPrefixOf hay || containsSub t needle

/-- Python `str.lower()` restricted to the ASCII strings the code uses. -/
def lowerStr (s : List Char) : List Char :=
  s.map Char.toLower

/-- Python `str.strip(chars)`: drop characters satisfying `p` from both ends. -/
def pyStrip (p : Char → Bool) (s : List Char) : List Char :=
  ((s.dropWhile p).reverse.dropWhile p).reverse

/-- Python slice `s[:k]` where `k` may be negative (`s[:-n]` drops the last
`n` characters, clipping at the empty string). -/
def pySliceTo (s : List Char) (k : Int) : List Char :=
  if 0 ≤ k then s.take k.toNat
  else s.take (s.length - (-k).toNat)

/-! ## `utils/helpers.py` -/

/-- The characters replaced by `sanitize_filename`
(`invalid_chars = '<>:"/\\|?*\x00\n\r\t'`). -/
def isInvalidFilenameChar (c : Char) : Bool :=
  c = '<' || c = '>' || c = ':' || c = '"' || c = '/' || c = '\\' ||
  c = '|' || c = '?' || c = '*' || c = '\x00' || c = '\n' || c = '\r' || c = '\t'

/-- The characters stripped from both ends (`filename.strip('. \t\n\r')`). -/
def isStripChar (c : Char) : Bool :=
  c = '.' || c = ' ' || c = '\t' || c = '\n' || c = '\r'

/-- One `%XX` hex escape step of `urllib.parse.unquote`, restricted to the
ASCII range; malformed escapes are kept literally, as in Python. -/
def unquote : List Char → List Char
  | [] => []
  | '%' :: a :: b :: rest =>
    if a.isDigit || ('a' ≤ a && a ≤ 'f') || ('A' ≤ a && a ≤ 'F') then
      if b.isDigit || ('a' ≤ b && b ≤ 'f') || ('A' ≤ b && b ≤ 'F') then
        Char.ofNat (16 * (if a.isDigit then a.toNat - 48 else a.toLower.toNat - 87) +
          (if b.isDigit then b.toNat - 48 else b.toLower.toNat - 87)) :: unquote rest
      else '%' :: unquote (a :: b :: rest)
    else '%' :: unquote (a :: b :: rest)
  | c :: rest => c :: unquote rest

/-- `os.path.splitext` on a string without path separators (inside
`sanitize_filename` all `/` and `\\` have been replaced already): split at
the last dot unless every character before it is a dot. -/
def splitext (s : List Char) : List Char × List Char :=
  match (s.reverse.takeWhile (· ≠ '.')), (s.reverse.dropWhile (· ≠ '.')) with
  | _, [] => (s, [])
  | revExtChars, _ :: revRest =>
    -- the dot found is an extension separator only if a non-dot char precedes it
    if revRest.any (· ≠ '.') then
      ((revRest.reverse), ('.' :: revExtChars.reverse))
    else (s, [])

/-- `os.path.splitext` on a general path: the dot rule is applied to the
basename (the part after the last `/`). -/
def splitextPath (s : List Char) : List Char × List Char :=
  let base := (s.reverse.takeWhile (· ≠ '/')).reverse
  ((s.reverse.dropWhile (· ≠ '/')).reverse ++ (splitext base).1, (splitext base).2)

/-- `sanitize_filename` from `utils/helpers.py`: URL-decode, replace invalid
characters by `_`, strip dots/whitespace from both ends, truncate names
longer than 200 characters while keeping the `splitext` extension.
(Its argument contains no `/` or `\\` at the `splitext` call — both were
replaced by `_` — so `splitext` and `splitextPath` agree there.) -/
def sanitize_filename (filename : List Char) : List Char :=
  if filename.isEmpty then "downloaded_file".toList
  else
    let f₁ := unquote filename
    let f₂ := f₁.map (fun c => if isInvalidFilenameChar c then '_' else c)
    let f₃ := pyStrip isStripChar f₂
    let f₄ :=
      if 200 < f₃.length then
        let (name, ext) := splitext f₃
        pySliceTo name (200 - (ext.length : Int)) ++ ext
      else f₃
    if f₄.isEmpty then "downloaded_file".toList else f₄

/-- The intermediate value of `sanitize_filename` after URL-decoding,
invalid-character replacement and stripping — i.e. the filename before
the length-200 truncation step.  Used to state the truncation behaviour. -/
def strippedName (s : List Char) : List Char :=
  pyStrip isStripChar ((unquote s).map (fun c => if isInvalidFilenameChar c then '_' else c))

/-- `is_gdrive_link` from `utils/helpers.py`. -/
def is_gdrive_link (url : List Char) : Bool :=
  containsSub (lowerStr url) "drive.google.com".toList ||
  containsSub (lowerStr url) "docs.google.com".toList

/-- The Terabox-family domain substrings of `is_terabox_link`. -/
def teraboxDomains : List (List Char) :=
  ["terabox.com".toList, "teraboxapp.com".toList, "1024terabox.com".toList,
   "1024tera.com".toList, "terabox.app".toList, "gcloud.life".toList,
   "momerybox.com".toList, "teraboxlink.com".toList, "freeterabox.com".toList,
   "terabox.tech".toList, "teraboxshare.com".toList]

/-- `is_terabox_link` from `utils/helpers.py`. -/
def is_terabox_link (url : List Char) : Bool :=
  teraboxDomains.any (fun p => containsSub (lowerStr url) p)

/-! ### `urllib.parse.urlparse(url).path`

Model of the CPython algorithm for the `.path` component, as used by
`is_direct_link`: optional scheme before the first `:` (letter followed by
letters/digits/`+`/`-`/`.`), optional `//netloc` up to the next `/?#`,
then fragment and query are cut, and `urlparse` finally splits `;params`
off the last path segment. -/

def isSchemeChar (c : Char) : Bool :=
  c.isAlpha || c.isDigit || c = '+' || c = '-' || c = '.'

/-- Split `s` at the first occurrence of `sep`; `none` if absent. -/
def splitFirst (sep : Char) (s : List Char) : Option (List Char × List Char) :=
  match s with
  | [] => none
  | c :: t =>
    if c = sep then some ([], t)
    else match splitFirst sep t with
      | some (a, b) => some (c :: a, b)
      | none => none

/-- Drop the scheme (`http:`, `https:`, …) if the prefix before the first
colon is a syntactically valid scheme. -/
def dropScheme (url : List Char) : List Char :=
  match splitFirst ':' url with
  | some (schemePart, rest) =>
    match schemePart with
    | [] => url
    | c :: cs => if c.isAlpha && cs.all isSchemeChar then rest else url
  | none => url

/-- Drop `//netloc` (characters up to the next `/`, `?` or `#`). -/
def dropNetloc (s : List Char) : List Char :=
  match s with
  | '/' :: '/' :: rest => rest.dropWhile (fun c => c ≠ '/' && c ≠ '?' && c ≠ '#')
  | _ => s

/-- Cut the string at the first occurrence of `sep`, keeping the front. -/
def cutAt (sep : Char) (s : List Char) : List Char :=
  match splitFirst sep s with
  | some (a, _) => a
  | none => s

/-- `urlparse(url).path`, including the `;params` split of `urlparse`. -/
def urlparsePath (url : List Char) : List Char :=
  let afterScheme := dropScheme url
  let afterNetloc := dropNetloc afterScheme
  let path := cutAt '?' (cutAt '#' afterNetloc)
  -- _splitparams: cut at the first ';' after the last '/'
  let lastSeg := path.reverse.takeWhile (· ≠ '/')
  if lastSeg.any (· = ';') then
    (path.reverse.dropWhile (· ≠ '/')).reverse ++ (cutAt ';' lastSeg.reverse)
  else path

/-- The extension allow-list of `is_direct_link`. -/
def directExtensions : List (List Char) :=
  [".mp4".toList, ".mkv".toList, ".avi".toList, ".mov".toList, ".webm".toList,
   ".flv".toList, ".3gp".toList, ".mp3".toList, ".wav".toList, ".flac".toList,
   ".aac".toList, ".ogg".toList, ".m4a".toList, ".pdf".toList, ".zip".toList,
   ".rar".toList, ".7z".toList, ".apk".toList, ".jpg".toList, ".jpeg".toList,
   ".png".toList, ".gif".toList, ".webp".toList]

/-- `is_direct_link` from `utils/helpers.py`: the lower-cased URL path ends
with a known media extension.  (The `try/except` in the source only guards
stdlib parse errors, which the total model cannot raise.) -/
def is_direct_link (url : List Char) : Bool :=
  let path := lowerStr (urlparsePath url)
  directExtensions.any (fun e => e.isSuffixOf path)

/-! ### The combined classifier

`process_user_links` (handlers/link_handler.py, line 173) admits a link if
`is_gdrive_link or is_terabox_link or is_direct_link`; for an admitted
link `download_and_upload_link` (line 493) routes `if is_gdrive_link …
elif is_terabox_link … else` direct. -/

inductive LinkKind
  | drive
  | locker
  | direct
  | unsupported
deriving DecidableEq, Repr

/-- The supported-link filter of `process_user_links` / `process_txt_file`. -/
def isSupportedLink (url : List Char) : Bool :=
  is_gdrive_link url || is_terabox_link url || is_direct_link url

/-- The download routing of `download_and_upload_link` / `download_and_upload`. -/
def routeLink (url : List Char) : LinkKind :=
  if is_gdrive_link url then .drive
  else if is_terabox_link url then .locker
  else .direct

/-- The end-to-end classification a submitted URL receives. -/
def classifyLink (url : List Char) : LinkKind :=
  if isSupportedLink url then routeLink url else .unsupported

/-! ## `utils/downloader.py`: Terabox surl extraction and URL normalization

`extract_terabox_surl` tries seven regular expressions in order via
`re.search` (leftmost match, greedy quantifiers with backtracking).  Each
pattern is compiled by hand into a scanner that advances the start
position one character at a time and, at each position, mirrors the
pattern's backtracking behaviour exactly. -/

/-- The character class `[a-zA-Z0-9_-]` used by every capture group. -/
def isWordChar (c : Char) : Bool :=
  ('a' ≤ c && c ≤ 'z') || ('A' ≤ c && c ≤ 'Z') || ('0' ≤ c && c ≤ '9') ||
  c = '_' || c = '-'

/-- Pattern 1, `[?&]surl=([a-zA-Z0-9_-]+)`: a `?` or `&` followed by
`surl=` and a non-empty run of word characters. -/
def findSurlParam : List Char → Option (List Char)
  | [] => none
  | c :: rest =>
    if (c = '?' || c = '&') && "surl=".toList.isPrefixOf rest then
      let cap := (rest.drop 5).takeWhile isWordChar
      if cap.isEmpty then findSurlParam rest else some cap
    else findSurlParam rest

/-- Pattern 2, `/s/1?([a-zA-Z0-9_-]+)`, matching at one fixed position:
after `/s/`, the greedy optional `1` is consumed when at least one word
character follows it; otherwise the engine backtracks and the `1` itself
is captured; with no `1` the capture is the non-empty word run. -/
def trySlashS (s : List Char) : Option (List Char) :=
  match s with
  | '/' :: 's' :: '/' :: '1' :: tail =>
    if (tail.takeWhile isWordChar).isEmpty then some ['1']
    else some (tail.takeWhile isWordChar)
  | '/' :: 's' :: '/' :: tail =>
    if (tail.takeWhile isWordChar).isEmpty then none
    else some (tail.takeWhile isWordChar)
  | _ => none

/-- Pattern 2 as `re.search`: try each start position left to right. -/
def findSlashS : List Char → Option (List Char)
  | [] => none
  | c :: rest => (trySlashS (c :: rest)).orElse fun _ => findSlashS rest

/-- Patterns 3–6 share the shape «literal then non-empty word run»:
`lit` is the literal part, and the capture is the maximal word run after it. -/
def findLitThenWord (lit : List Char) : List Char → Option (List Char)
  | [] => none
  | c :: rest =>
    if lit.isPrefixOf (c :: rest) then
      let cap := ((c :: rest).drop lit.length).takeWhile isWordChar
      if cap.isEmpty then findLitThenWord lit rest else some cap
    else findLitThenWord lit rest

/-- Pattern 5, `/sharing/(?:link|video)\?surl=([a-zA-Z0-9_-]+)`: at each
position the engine tries the `link` literal, then the `video` literal
(they can never both match at one position), then the non-empty word run. -/
def findSharing : List Char → Option (List Char)
  | [] => none
  | c :: rest =>
    if "/sharing/link?surl=".toList.isPrefixOf (c :: rest) then
      let cap := ((c :: rest).drop 19).takeWhile isWordChar
      if cap.isEmpty then findSharing rest else some cap
    else if "/sharing/video?surl=".toList.isPrefixOf (c :: rest) then
      let cap := ((c :: rest).drop 20).takeWhile isWordChar
      if cap.isEmpty then findSharing rest else some cap
    else findSharing rest

/-- Pattern 7, `/([a-zA-Z0-9_-]{15,})(?:\?|$|&)`: a `/` followed by a
maximal word run of length ≥ 15 whose terminator is `?`, `&` or the end
of the string (the greedy run cannot backtrack into a successful
terminator, since the character after a shorter run is a word char). -/
def findLongCode : List Char → Option (List Char)
  | [] => none
  | c :: rest =>
    if c = '/' then
      let run := rest.takeWhile isWordChar
      let after := rest.drop run.length
      if 15 ≤ run.length &&
         (after.isEmpty || after.head? = some '?' || after.head? = some '&') then
        some run
      else findLongCode rest
    else findLongCode rest

/-- `Downloader.extract_terabox_surl`: the seven patterns in source order. -/
def extract_terabox_surl (url : List Char) : Option (List Char) :=
  (findSurlParam url).orElse fun _ =>
  (findSlashS url).orElse fun _ =>
  (findLitThenWord "tbx.to/".toList url).orElse fun _ =>
  (findLitThenWord "terabox.link/".toList url).orElse fun _ =>
  (findSharing url).orElse fun _ =>
  (findLitThenWord "/wap/share/filelist?surl=".toList url).orElse fun _ =>
  findLongCode url

/-- The cleaning step of `normalize_terabox_url`:
`surl.lstrip('1') if len(surl) > 20 else surl`. -/
def cleanSurl (surl : List Char) : List Char :=
  if 20 < surl.length then surl.dropWhile (· = '1') else surl

/-- `Downloader.normalize_terabox_url`. -/
def normalize_terabox_url (url : List Char) : List Char :=
  match extract_terabox_surl url with
  | some surl => "https://www.terabox.com/s/1".toList ++ cleanSurl surl
  | none => url

/-! ## `utils/downloader.py`: the synchronous download routine

`download_file_sync` is modelled over a mocked HTTP response (status,
headers, full byte stream) and an explicit destination directory (a list
of `(filename, size)` pairs); path names are reduced to basenames since
every file of one download lives in the same user directory. -/

/-- A mocked HTTP response as seen by `download_file_sync`. -/
structure HttpResponse where
  status : Nat
  contentType : List Char
  contentDisposition : List Char
  /-- The concatenation of all body chunks that `iter_content` yields. -/
  body : List Char
deriving DecidableEq, Repr

inductive DlOutcome
  /-- `(True, file_path, None)` -/
  | ok (filename : List Char)
  /-- `(False, None, error)` -/
  | err (msg : List Char)
deriving DecidableEq, Repr

def DlOutcome.isOk : DlOutcome → Bool
  | .ok _ => true
  | .err _ => false

/-- The stop class of the capture `([^"\';\n]+)` in the
`Content-Disposition` filename regex. -/
def isCdStop (c : Char) : Bool :=
  c = '"' || c = '\'' || c = ';' || c = '\n'

/-- First match of `re.findall(r'filename[*]?=["\']?(?:UTF-8\'\')?([^"\';\n]+)', cd)`:
scan left to right; at a match position consume `filename`, an optional
`*`, `=`, an optional quote, then greedily the literal `UTF-8''`
(backtracking to not consuming it when the capture would be empty —
which then captures `UTF-8`, stopping at the `'`). -/
def cdFindFilename : List Char → Option (List Char)
  | [] => none
  | c :: rest =>
    (if "filename".toList.isPrefixOf (c :: rest) then
      let after := (c :: rest).drop 8
      let afterStar := if after.head? = some '*' then after.drop 1 else after
      match afterStar with
      | '=' :: t =>
        let t1 := if t.head? = some '"' || t.head? = some '\'' then t.drop 1 else t
        if "UTF-8''".toList.isPrefixOf t1 then
          let cap := (t1.drop 7).takeWhile (fun x => ¬ isCdStop x)
          if cap.isEmpty then
            let cap2 := t1.takeWhile (fun x => ¬ isCdStop x)
            if cap2.isEmpty then none else some cap2
          else some cap
        else
          let cap := t1.takeWhile (fun x => ¬ isCdStop x)
          if cap.isEmpty then none else some cap
      | _ => none
    else none).orElse fun _ => cdFindFilename rest

/-- The `content_type_map` of `get_extension_from_content_type`. -/
def contentTypeMap : List (List Char × List Char) :=
  [("video/mp4".toList, ".mp4".toList), ("video/x-matroska".toList, ".mkv".toList),
   ("video/webm".toList, ".webm".toList), ("video/avi".toList, ".avi".toList),
   ("video/quicktime".toList, ".mov".toList), ("audio/mpeg".toList, ".mp3".toList),
   ("audio/wav".toList, ".wav".toList), ("audio/flac".toList, ".flac".toList),
   ("image/jpeg".toList, ".jpg".toList), ("image/png".toList, ".png".toList),
   ("image/gif".toList, ".gif".toList), ("application/pdf".toList, ".pdf".toList),
   ("application/zip".toList, ".zip".toList),
   ("application/vnd.android.package-archive".toList, ".apk".toList)]

/-- `Downloader.get_extension_from_content_type`:
`content_type.split(';')[0].strip().lower()` looked up in the map. -/
def get_extension_from_content_type (ct : List Char) : List Char :=
  let key := lowerStr (pyStrip Char.isWhitespace (cutAt ';' ct))
  (contentTypeMap.lookup key).getD []

/-- `Downloader.ensure_extension`. -/
def ensure_extension (filename ct url : List Char) : List Char :=
  let filename := if filename.isEmpty then "downloaded_file".toList else filename
  let ne := splitextPath filename
  if ¬ ne.2.isEmpty && 2 ≤ ne.2.length && ne.2.length ≤ 5 then filename
  else
    let ctExt := if ¬ ct.isEmpty then get_extension_from_content_type ct else []
    if ¬ ctExt.isEmpty then ne.1 ++ ctExt
    else
      let urlExt := if ¬ url.isEmpty then (splitextPath (urlparsePath url)).2 else []
      if ¬ urlExt.isEmpty && 2 ≤ urlExt.length && urlExt.length ≤ 5 then ne.1 ++ urlExt
      else if ¬ ct.isEmpty && containsSub (lowerStr ct) "video".toList then
        ne.1 ++ ".mp4".toList
      else filename

/-! ### The decimal counter of the collision loop

The loop renames `base.ext` to `base_1.ext`, `base_2.ext`, … via the
f-string `f"{base}_{counter}{ext}"`; `natDec` reproduces `str(counter)`. -/

/-- Decimal rendering with explicit fuel (any `fuel > n` suffices, since
the loop value shrinks by a factor 10 per step); the fuel makes the
definition structurally recursive, so that the kernel can evaluate it. -/
def natDecAux : Nat → Nat → List Char
  | 0, _ => []
  | fuel + 1, n =>
    if n < 10 then [Nat.digitChar n]
    else natDecAux fuel (n / 10) ++ [Nat.digitChar (n % 10)]

/-- Decimal rendering of a natural number, as Python `str(n)`. -/
def natDec (n : Nat) : List Char :=
  natDecAux (n + 1) n

/-- Parse a decimal string back; inverse to `natDec` (used only in proofs). -/
def decVal (s : List Char) : Nat :=
  s.foldl (fun a c => 10 * a + (c.toNat - 48)) 0

/-- The first of `cs` that does not collide with `names`
(the `while os.path.exists(file_path)` loop tries candidates in order). -/
def firstFree (names : List (List Char)) : List (List Char) → Option (List Char)
  | [] => none
  | c :: cs => if c ∈ names then firstFree names cs else some c

/-- The candidate sequence of the collision loop:
`base.ext, base_1.ext, base_2.ext, …` (`count` suffixed candidates). -/
def collisionCandidates (count : Nat) (base ext : List Char) : List (List Char) :=
  (base ++ ext) :: (List.range count).map (fun k => base ++ '_' :: (natDec (k + 1) ++ ext))

/-- The unique-filename loop of `download_file_sync` (lines 183–188).  The
Python loop is unbounded but always stops at the first free name, which —
the candidates being pairwise distinct — occurs among the first
`names.length + 1` suffixed candidates; the `getD` default is unreachable. -/
def uniqueFilename (names : List (List Char)) (fname : List Char) : List Char :=
  let be := splitextPath fname
  (firstFree names (collisionCandidates (names.length + 1) be.1 be.2)).getD fname

/-- `Downloader.download_file_sync` over a mocked response.  Timeouts and
transport exceptions are not represented: the model covers the runs in
which `requests.get` returned a response.  Writing the body always
succeeds and produces a file of `body.length` bytes. -/
def download_file_sync (resp : HttpResponse) (url fallbackName : List Char)
    (dir : List (List Char × Nat)) : DlOutcome × List (List Char × Nat) :=
  if resp.status ≠ 200 ∧ resp.status ≠ 206 then
    (.err ("HTTP Error: ".toList ++ natDec resp.status), dir)
  else
    let fn0 :=
      if containsSub resp.contentDisposition "filename=".toList then
        match cdFindFilename resp.contentDisposition with
        | some m => sanitize_filename (unquote m)
        | none => fallbackName
      else fallbackName
    let fn1 := ensure_extension fn0 resp.contentType url
    let saved := uniqueFilename (dir.map Prod.fst) fn1
    let dir' := dir ++ [(saved, resp.body.length)]
    if 0 < resp.body.length then (.ok saved, dir') else (.err "Empty file".toList, dir')

/-! ## `utils/progress.py`

`Progress.should_update` keeps one field `last_update_time` (initially 0)
and an 8-second interval; timestamps are `time.time()` values, modelled
as rationals. -/

/-- One call of `Progress.should_update` at wall-clock time `t` with
stored `last_update_time = last`: returns the emitted boolean and the new
stored time. -/
def should_update (last t : ℚ) : Bool × ℚ :=
  if 8 ≤ t - last then (true, t) else (false, last)

/-- The booleans returned by a sequence of `should_update` calls at the
given times, starting from stored time `last`. -/
def emitRun (last : ℚ) : List ℚ → List Bool
  | [] => []
  | t :: ts => (should_update last t).1 :: emitRun (should_update last t).2 ts

/-- The stored `last_update_time` after a sequence of calls. -/
def emitState (last : ℚ) : List ℚ → ℚ
  | [] => last
  | t :: ts => emitState (should_update last t).2 ts

/-- The time of the last call that returned `true`, if any, in a call
sequence starting from stored time `last`. -/
def lastTrueTime (last : ℚ) : List ℚ → Option ℚ
  | [] => none
  | t :: ts =>
    match lastTrueTime (should_update last t).2 ts with
    | some x => some x
    | none => if (should_update last t).1 then some t else none

/-- Python `int(x)` on a rational: truncation toward zero. -/
def pyInt (q : ℚ) : Int :=
  q.num.tdiv q.den

/-- `speed = current / elapsed_time if elapsed_time > 0 else 0`
(`progress_callback` in `utils/progress.py` line 123 and the inner
callback of `Uploader.upload_file`, `utils/uploader.py` line 119). -/
def progress_speed (current elapsed : ℚ) : ℚ :=
  if 0 < elapsed then current / elapsed else 0

/-- `eta = int((total - current) / speed) if speed > 0 else 0`
(`utils/progress.py` line 124, `utils/uploader.py` line 120). -/
def progress_eta (current total speed : ℚ) : Int :=
  if 0 < speed then pyInt ((total - current) / speed) else 0

/-- `Progress.format_time`; its argument (the ETA) is an `int`, and all
arithmetic in the non-negative branches is the Python floor
division/modulo, which for non-negative values is `Nat` arithmetic. -/
def format_time (seconds : Int) : List Char :=
  if seconds < 0 then "0s".toList
  else if seconds < 60 then natDec seconds.toNat ++ "s".toList
  else if seconds < 3600 then
    natDec (seconds.toNat / 60) ++ "m, ".toList ++ natDec (seconds.toNat % 60) ++ "s".toList
  else
    natDec (seconds.toNat / 3600) ++ "h, ".toList ++
      natDec (seconds.toNat % 3600 / 60) ++ "m".toList

/-! ## `database/users.py`

A user's persisted state: the optional premium record (with its optional
`expiry_date`) and today's `daily_usage` count.  `datetime` values are
modelled as integers; `Config.FREE_DAILY_LIMIT = 5`. -/

def FREE_DAILY_LIMIT : Nat := 5

structure PremiumRecord where
  /-- `expiry_date`; `add_premium` always sets it, but `is_premium` guards
  a missing value, so it is optional here. -/
  expiry : Option Int
deriving DecidableEq, Repr

structure UserRecord where
  premium : Option PremiumRecord
  dailyUsage : Nat
deriving DecidableEq, Repr

/-- `UserDatabase.is_premium` at time `now`: owners are always premium; a
record with a future expiry is premium; otherwise the record is deleted
(`remove_premium`) and the user is not premium. -/
def is_premium (isOwner : Bool) (now : Int) (u : UserRecord) : Bool × UserRecord :=
  if isOwner then (true, u)
  else
    match u.premium with
    | none => (false, u)
    | some p =>
      match p.expiry with
      | some e => if now < e then (true, u) else (false, { u with premium := none })
      | none => (false, { u with premium := none })

/-- `UserDatabase.increment_usage` for today's row. -/
def increment_usage (u : UserRecord) : UserRecord :=
  { u with dailyUsage := u.dailyUsage + 1 }

/-- `UserDatabase.can_use_bot`: premium users get `(True, -1)`; free users
get `(remaining > 0, remaining)` with
`remaining = FREE_DAILY_LIMIT - usage`. -/
def can_use_bot (isOwner : Bool) (now : Int) (u : UserRecord) :
    (Bool × Int) × UserRecord :=
  let pr := is_premium isOwner now u
  if pr.1 then ((true, -1), pr.2)
  else
    let remaining : Int := (FREE_DAILY_LIMIT : Int) - (pr.2.dailyUsage : Int)
    ((0 < remaining, remaining), pr.2)

/-! ## `utils/uploader.py`: `Uploader.upload_file` and the caller's cleanup

The transport sends are abstracted as success bits; the model records
which send shapes were attempted in order, whether the call reported
success, and whether the generated thumbnail was removed (source lines
245–249, executed only when no send raised). -/

inductive SendKind
  | video
  | audio
  | photo
  | document
deriving DecidableEq, Repr

structure UploadEnv where
  /-- `os.path.exists(file_path)` -/
  fileExists : Bool
  /-- `os.path.getsize(file_path)` -/
  fileSize : Nat
  /-- a custom thumbnail was configured and exists on disk -/
  customThumbValid : Bool
  /-- `generate_thumbnail` produced a file (only consulted when no valid
  custom thumbnail exists, as in the source) -/
  thumbGenerated : Bool
  /-- the kind-specific send (`send_video`/`send_audio`/`send_photo`)
  returns without raising -/
  sendSpecificOk : Bool
  /-- `send_document` returns without raising -/
  sendDocumentOk : Bool
deriving DecidableEq, Repr

structure UploadResult where
  success : Bool
  /-- the send attempts, in order -/
  sends : List SendKind
  /-- `os.remove(thumbnail)` ran on a generated thumbnail -/
  genThumbDeleted : Bool
deriving DecidableEq, Repr

/-- `Uploader.upload_file` for a file whose `get_file_type` string is
`ftype`.  A failing specific send falls through to `send_document`; a
failing `send_document` propagates to the outer `except`, which returns
`(False, None, error)` without running the thumbnail cleanup. -/
def upload_file (ftype : List Char) (env : UploadEnv) : UploadResult :=
  if ¬ env.fileExists then ⟨false, [], false⟩
  else
    -- line 245: delete `thumbnail` iff it is set, exists, and differs from
    -- `custom_thumbnail`, i.e. iff it is a generated thumbnail
    let thumbCleanup : Bool := ¬ env.customThumbValid && env.thumbGenerated
    if ftype = "video".toList then
      if env.sendSpecificOk then ⟨true, [.video], thumbCleanup⟩
      else if env.sendDocumentOk then ⟨true, [.video, .document], thumbCleanup⟩
      else ⟨false, [.video, .document], false⟩
    else if ftype = "audio".toList then
      if env.sendSpecificOk then ⟨true, [.audio], thumbCleanup⟩
      else if env.sendDocumentOk then ⟨true, [.audio, .document], thumbCleanup⟩
      else ⟨false, [.audio, .document], false⟩
    else if ftype = "image".toList then
      if env.fileSize < 10 * 1024 * 1024 then
        if env.sendSpecificOk then ⟨true, [.photo], thumbCleanup⟩
        else if env.sendDocumentOk then ⟨true, [.photo, .document], thumbCleanup⟩
        else ⟨false, [.photo, .document], false⟩
      else if env.sendDocumentOk then ⟨true, [.document], thumbCleanup⟩
      else ⟨false, [.document], false⟩
    else
      if env.sendDocumentOk then ⟨true, [.document], thumbCleanup⟩
      else ⟨false, [.document], false⟩

structure DeliveryResult where
  uploaded : Bool
  sends : List SendKind
  genThumbDeleted : Bool
  localFileDeleted : Bool
deriving DecidableEq, Repr

/-- The upload phase of `download_and_upload_link`
(`handlers/link_handler.py` lines 566–609) and of `download_and_upload`
(`handlers/file_handler.py` lines 358–385): after `upload_file` returns —
and in every `except` branch — `cleanup_file(file_path)` runs, so the
local file is always deleted. -/
def deliverFile (ftype : List Char) (env : UploadEnv) : DeliveryResult :=
  let r := upload_file ftype env
  ⟨r.success, r.sends, r.genThumbDeleted, true⟩

/-! ## The charging loops of `handlers/link_handler.py` and
`handlers/file_handler.py`

`process_user_links` checks `can_use_bot` once for the whole message and
then, for every supported link, increments the daily usage after each
successful delivery (`if not is_premium: increment_usage`) — it never
re-checks the remaining quota inside the loop.  `process_txt_file`
additionally rejects the whole batch up front when the file holds more
supported links than the remaining quota.  The model takes the
per-link delivery outcomes as a list of booleans and returns the list of
charged task indices, in order. -/

/-- The usage increments of the per-link loop: one charge per successful
task when the user is not premium. -/
def chargedTasks (premium : Bool) : List Bool → Nat → List Nat
  | [], _ => []
  | outcome :: rest, idx =>
    (if outcome && !premium then [idx] else []) ++ chargedTasks premium rest (idx + 1)

/-- Charged task indices of `process_user_links`
(`handlers/link_handler.py` lines 144–289): the quota gate is
`can_use_bot` evaluated once; after it, every successful task is charged. -/
def process_user_links_charges (premium : Bool) (remaining : Int)
    (outcomes : List Bool) : List Nat :=
  if premium || 0 < remaining then chargedTasks premium outcomes 0 else []

/-- Charged task indices of `process_txt_file`
(`handlers/file_handler.py` lines 132–284): same gate, plus the up-front
batch rejection `len(supported_links) > remaining` for free users. -/
def process_txt_file_charges (premium : Bool) (remaining : Int)
    (outcomes : List Bool) : List Nat :=
  if premium || 0 < remaining then
    if !premium && remaining < (outcomes.length : Int) then []
    else chargedTasks premium outcomes 0
  else []

/-- Formalization of the failure condition in the specification (its
"content-type or magic-byte check indicates an HTML error page was
downloaded instead of the expected media"): the declared content type is
`text/html`, or the body starts with an HTML tag.  This definition
follows the spec's words — `download_file_sync` itself performs no such
check — and is used only to state claim C2 against the code. -/
def htmlErrorIndicated (resp : HttpResponse) : Bool :=
  containsSub (lowerStr resp.contentType) "text/html".toList ||
  "<html".toList.isPrefixOf (lowerStr resp.body) ||
  "<!doctype html".toList.isPrefixOf (lowerStr resp.body)

/-! ## Shared helper lemmas -/

theorem chargedTasks_bounds (premium : Bool) :
    ∀ (outcomes : List Bool) (idx i : Nat), i ∈ chargedTasks premium outcomes idx →
      idx ≤ i ∧ outcomes.getD (i - idx) false = true ∧ premium = false := by
  intro outcomes
  induction outcomes with
  | nil => intro idx i h; simp [chargedTasks] at h
  | cons o rest ih =>
    intro idx i h
    simp only [chargedTasks, List.mem_append] at h
    rcases h with h | h
    · rcases ho : o && !premium with _ | _
      · simp [ho] at h
      · simp [ho] at h
        subst h
        have h1 : o = true := by
          cases o
          · simp at ho
          · rfl
        have h2 : premium = false := by
          cases premium
          · rfl
          · simp at ho
        exact ⟨le_refl _, by simp [h1], h2⟩
    · obtain ⟨h1, h2, h3⟩ := ih (idx + 1) i h
      refine ⟨by omega, ?_, h3⟩
      have : i - idx = (i - (idx + 1)) + 1 := by omega
      simpa [this] using h2

theorem chargedTasks_sorted (premium : Bool) :
    ∀ (outcomes : List Bool) (idx : Nat),
      (chargedTasks premium outcomes idx).Pairwise (· < ·) := by
  intro outcomes
  induction outcomes with
  | nil => intro idx; simp [chargedTasks]
  | cons o rest ih =>
    intro idx
    simp only [chargedTasks]
    rcases ho : o && !premium with _ | _
    · simpa [ho] using ih (idx + 1)
    · simp only [ho, if_true, List.singleton_append, List.pairwise_cons]
      exact ⟨fun i hi => by have := (chargedTasks_bounds premium rest (idx + 1) i hi).1; omega,
        ih (idx + 1)⟩

theorem chargedTasks_nodup (premium : Bool) (outcomes : List Bool) (idx : Nat) :
    (chargedTasks premium outcomes idx).Nodup :=
  (chargedTasks_sorted premium outcomes idx).imp (fun h => Nat.ne_of_lt h)

theorem chargedTasks_length_eq_count :
    ∀ (outcomes : List Bool) (idx : Nat),
      (chargedTasks false outcomes idx).length = outcomes.count true := by
  intro outcomes
  induction outcomes with
  | nil => intro idx; simp [chargedTasks]
  | cons o rest ih =>
    intro idx
    cases o <;> simp [chargedTasks, List.count_cons, ih (idx + 1)]

theorem chargedTasks_premium_nil :
    ∀ (outcomes : List Bool) (idx : Nat), chargedTasks true outcomes idx = [] := by
  intro outcomes
  induction outcomes with
  | nil => intro idx; simp [chargedTasks]
  | cons o rest ih => intro idx; simp [chargedTasks, ih (idx + 1)]

/-! ## Claim C1 -/

/-- Claim C1, stated as frozen, is false on the code: with `M = 1` task of
quota remaining a free user who submits `N = 2` supported links that both
succeed is charged twice in the message path (`process_user_links` checks
the quota once and then charges every success), and is charged zero times
in the batch-file path (`process_txt_file` rejects the whole batch up
front) — in neither path "exactly M". -/
theorem quota_charging_counterexample :
    process_user_links_charges false 1 [true, true] = [0, 1] ∧
    (process_user_links_charges false 1 [true, true]).length = 2 ∧
    process_txt_file_charges false 1 [true, true] = [] := by
  refine ⟨?_, ?_, ?_⟩ <;> decide

/-- Claim C1 (amended): the quota is only checked when the message
arrives.  In the message path every successful task of an admitted batch
is charged exactly once — `count true` charges in total, which can exceed
the remaining quota `M`; in the batch-file path a free-user batch with
more supported links than `M` is rejected up front with zero charges.
Failed tasks are never charged, premium users are never charged, and no
task is charged twice. -/
theorem quota_charging_spec (premium : Bool) (remaining : Int) (outcomes : List Bool) :
    (process_user_links_charges premium remaining outcomes).Nodup ∧
    (process_txt_file_charges premium remaining outcomes).Nodup ∧
    (∀ i ∈ process_user_links_charges premium remaining outcomes,
      outcomes.getD i false = true) ∧
    (premium = true → process_user_links_charges premium remaining outcomes = [] ∧
      process_txt_file_charges premium remaining outcomes = []) ∧
    (premium = false → 0 < remaining →
      (process_user_links_charges premium remaining outcomes).length =
        outcomes.count true) ∧
    (premium = false → 0 < remaining → remaining < (outcomes.length : Int) →
      process_txt_file_charges premium remaining outcomes = []) := by
  refine ⟨?_, ?_, ?_, ?_, ?_, ?_⟩
  · unfold process_user_links_charges
    split
    · exact chargedTasks_nodup premium outcomes 0
    · exact List.nodup_nil
  · unfold process_txt_file_charges
    split
    · split
      · exact List.nodup_nil
      · exact chargedTasks_nodup premium outcomes 0
    · exact List.nodup_nil
  · intro i hi
    unfold process_user_links_charges at hi
    split at hi
    · simpa using (chargedTasks_bounds premium outcomes 0 i hi).2.1
    · simp at hi
  · intro hp
    subst hp
    constructor
    · unfold process_user_links_charges
      split <;> simp [chargedTasks_premium_nil]
    · unfold process_txt_file_charges
      split
      · split
        · rfl
        · simp [chargedTasks_premium_nil]
      · rfl
  · intro hp hr
    subst hp
    unfold process_user_links_charges
    rw [if_pos (by simpa using hr)]
    exact chargedTasks_length_eq_count outcomes 0
  · intro hp hr hn
    subst hp
    unfold process_txt_file_charges
    rw [if_pos (by simpa using hr), if_pos (by simpa using hn)]

/-- Witness for the amended C1 at a concrete input: a free user with 2
remaining quota and outcomes `[success, failure, success]` is charged for
exactly the two successes, once each. -/
theorem quota_charging_spec_witness :
    (process_user_links_charges false 2 [true, false, true]).Nodup ∧
    (process_user_links_charges false 2 [true, false, true]).length =
      ([true, false, true] : List Bool).count true ∧
    process_txt_file_charges false 2 [true, false, true] = [] := by
  obtain ⟨h1, _, _, _, h5, h6⟩ := quota_charging_spec false 2 [true, false, true]
  exact ⟨h1, h5 rfl (by norm_num), h6 rfl (by norm_num) (by norm_num)⟩

/-! ## Claim C3 -/

/-- Claim C3, stated as frozen, is false on the code: the three category
rules are not independent — the code applies them in priority order, so a
URL on a Terabox-family domain whose path ends in `.mp4` is classified
locker-kind, not direct-kind as the frozen claim requires for every URL
with a recognized extension. -/
theorem classifyLink_counterexample :
    is_direct_link "https://terabox.com/s/vid.mp4".toList = true ∧
    is_terabox_link "https://terabox.com/s/vid.mp4".toList = true ∧
    classifyLink "https://terabox.com/s/vid.mp4".toList = LinkKind.locker ∧
    classifyLink "https://terabox.com/s/vid.mp4".toList ≠ LinkKind.direct := by
  refine ⟨?_, ?_, ?_, ?_⟩ <;> decide

/-- Claim C3 (amended): the classifier is a deterministic total function
with priority order drive > locker > direct: a Google-Drive-domain URL is
drive-kind; a Terabox-domain URL that is not drive-kind is locker-kind; a
URL with a recognized path extension and neither domain is direct-kind;
and a URL is unsupported exactly when it matches none of the three
rules.  No network call is modelled because the source functions are pure
string predicates. -/
theorem classifyLink_spec (url : List Char) :
    (is_gdrive_link url = true → classifyLink url = LinkKind.drive) ∧
    (is_gdrive_link url = false → is_terabox_link url = true →
      classifyLink url = LinkKind.locker) ∧
    (is_gdrive_link url = false → is_terabox_link url = false →
      is_direct_link url = true → classifyLink url = LinkKind.direct) ∧
    (classifyLink url = LinkKind.unsupported ↔
      is_gdrive_link url = false ∧ is_terabox_link url = false ∧
      is_direct_link url = false) := by
  unfold classifyLink isSupportedLink routeLink
  cases hg : is_gdrive_link url <;> cases ht : is_terabox_link url <;>
    cases hd : is_direct_link url <;> simp

/-- Witness for the amended C3 on four concrete URLs, one per kind. -/
theorem classifyLink_spec_witness :
    classifyLink "https://drive.google.com/file/d/abc".toList = LinkKind.drive ∧
    classifyLink "https://www.terabox.com/s/1abc".toList = LinkKind.locker ∧
    classifyLink "https://cdn.example.com/movie.mp4".toList = LinkKind.direct ∧
    classifyLink "https://example.com/page".toList = LinkKind.unsupported := by
  refine ⟨(classifyLink_spec _).1 (by decide),
    (classifyLink_spec _).2.1 (by decide) (by decide),
    (classifyLink_spec _).2.2.1 (by decide) (by decide) (by decide),
    ((classifyLink_spec _).2.2.2).mpr ⟨by decide, by decide, by decide⟩⟩

/-! ## Claim C4 -/

/-- Claim C4 (confirmed): `can_use_bot` grants premium users access
unconditionally, returning `(True, -1)` — the `-1` is the sentinel for
unlimited remaining; and a premium record whose expiry is in the past
makes `is_premium` answer `False`, delete the record (lazy clearing), and
`can_use_bot` behave exactly as for a user with no premium record. -/
theorem premium_quota_spec (isOwner : Bool) (now : Int) (u : UserRecord) :
    ((is_premium isOwner now u).1 = true →
      (can_use_bot isOwner now u).1 = (true, -1)) ∧
    (∀ p e, isOwner = false → u.premium = some p → p.expiry = some e → e < now →
      (is_premium isOwner now u).1 = false ∧
      (is_premium isOwner now u).2 = { u with premium := none } ∧
      can_use_bot isOwner now u = can_use_bot isOwner now { u with premium := none }) := by
  constructor
  · intro h
    unfold can_use_bot
    simp [h]
  · intro p e hown hpr hex hlt
    have hnp : is_premium isOwner now u = (false, { u with premium := none }) := by
      unfold is_premium
      rw [hown]
      simp only [Bool.false_eq_true, if_false, hpr, hex]
      rw [if_neg (by omega)]
    refine ⟨by rw [hnp], by rw [hnp], ?_⟩
    unfold can_use_bot
    rw [hnp]
    unfold is_premium
    rw [hown]
    simp

/-- Witness for C4: a premium record that expired at time 50, checked at
time 100, and separately an owner check. -/
theorem premium_quota_spec_witness :
    (is_premium false 100 ⟨some ⟨some 50⟩, 2⟩).1 = false ∧
    (is_premium false 100 ⟨some ⟨some 50⟩, 2⟩).2 = ⟨none, 2⟩ ∧
    can_use_bot false 100 ⟨some ⟨some 50⟩, 2⟩ = can_use_bot false 100 ⟨none, 2⟩ ∧
    (can_use_bot true 0 ⟨none, 99⟩).1 = (true, -1) := by
  obtain ⟨-, h2⟩ := premium_quota_spec false 100 ⟨some ⟨some 50⟩, 2⟩
  obtain ⟨ha, hb, hc⟩ := h2 ⟨some 50⟩ 50 rfl rfl rfl (by norm_num)
  exact ⟨ha, hb, hc, (premium_quota_spec true 0 ⟨none, 99⟩).1 (by decide)⟩

/-! ## Claim C5 -/

theorem emitState_eq_lastTrueTime (ts : List ℚ) :
    ∀ last : ℚ, emitState last ts = (lastTrueTime last ts).getD last := by
  induction ts with
  | nil => intro last; simp [emitState, lastTrueTime]
  | cons t rest ih =>
    intro last
    simp only [emitState, lastTrueTime]
    rcases h : lastTrueTime (should_update last t).2 rest with _ | x
    · rw [ih]
      rw [h]
      unfold should_update
      split
      · simp
      · simp
    · rw [ih, h]
      simp

/-- Claim C5 (confirmed): after any call history, a further
`should_update` call at time `t` returns `true` iff at least 8 seconds
have passed since the last call that returned `true`; before any `true`
the stored time is the initial 0, so the first call returns `true`
whenever `t ≥ 8` — which always holds for the Unix-epoch clock
`time.time()` the code reads.  Hence `should_update` emits at most once
per 8-second interval regardless of call frequency. -/
theorem should_update_rate_limit (history : List ℚ) (t : ℚ) :
    (lastTrueTime 0 history = none → 8 ≤ t →
      (should_update (emitState 0 history) t).1 = true) ∧
    (∀ L, lastTrueTime 0 history = some L →
      (t - L < 8 → (should_update (emitState 0 history) t).1 = false) ∧
      (8 ≤ t - L → (should_update (emitState 0 history) t).1 = true)) := by
  constructor
  · intro hn ht
    rw [emitState_eq_lastTrueTime, hn]
    unfold should_update
    rw [if_pos (by simpa using ht)]
  · intro L hL
    rw [emitState_eq_lastTrueTime, hL]
    constructor
    · intro hlt
      unfold should_update
      rw [if_neg (by simp; linarith)]
    · intro hge
      unfold should_update
      rw [if_pos (by simpa using hge)]

/-- Witness for C5: a first call at time 10 emits; calls at times 15 and
17 after an emission at time 10 are suppressed; a call at 18 emits. -/
theorem should_update_rate_limit_witness :
    (should_update (emitState 0 []) 10).1 = true ∧
    (should_update (emitState 0 [10]) 15).1 = false ∧
    (should_update (emitState 0 [10, 15]) 17).1 = false ∧
    (should_update (emitState 0 [10, 15]) 18).1 = true := by
  have h1 : lastTrueTime (0 : ℚ) [] = none := by simp [lastTrueTime]
  have hsu : should_update (0 : ℚ) 10 = (true, 10) := by
    unfold should_update
    norm_num
  have hsu2 : should_update (10 : ℚ) 15 = (false, 10) := by
    unfold should_update
    norm_num
  have h2 : lastTrueTime (0 : ℚ) [10] = some 10 := by
    simp [lastTrueTime, hsu]
  have h3 : lastTrueTime (0 : ℚ) [10, 15] = some 10 := by
    simp [lastTrueTime, hsu, hsu2]
  refine ⟨(should_update_rate_limit [] 10).1 h1 (by norm_num),
    ((should_update_rate_limit [10] 15).2 10 h2).1 (by norm_num),
    ((should_update_rate_limit [10, 15] 17).2 10 h3).1 (by norm_num),
    ((should_update_rate_limit [10, 15] 18).2 10 h3).2 (by norm_num)⟩

/-! ## Claim C8 -/

/-- Claim C8, stated as frozen, is false on the code: with 100 bytes
transferred after 10 seconds (speed 10 B/s) and an unknown total
(`total = 0`), the computed ETA is `int((0 - 100) / 10) = -10`, not 0.
Only the `speed = 0` half of the claim holds at the computation site. -/
theorem progress_eta_counterexample :
    progress_speed 100 10 = 10 ∧
    progress_eta 100 0 (progress_speed 100 10) = -10 ∧
    progress_eta 100 0 (progress_speed 100 10) ≠ 0 := by
  have hs : progress_speed 100 10 = 10 := by
    unfold progress_speed
    norm_num
  refine ⟨hs, ?_, ?_⟩
  · rw [hs]
    unfold progress_eta pyInt
    norm_num
  · rw [hs]
    unfold progress_eta pyInt
    norm_num

/-- Claim C8 (amended): the computed ETA is 0 whenever the measured speed
is 0 (including the unknown-elapsed case); when the total is unknown
(zero) and the speed is positive the computed ETA is the truncation of
`-current/speed`, hence non-positive rather than zero — but `format_time`
renders every non-positive ETA as `"0s"`, so the displayed ETA is the
claimed 0 in both cases. -/
theorem progress_eta_zero_spec (current total elapsed : ℚ) (hc : 0 ≤ current) :
    (progress_speed current elapsed = 0 →
      progress_eta current total (progress_speed current elapsed) = 0) ∧
    (total = 0 →
      progress_eta current total (progress_speed current elapsed) ≤ 0 ∧
      format_time (progress_eta current total (progress_speed current elapsed)) =
        "0s".toList) := by
  constructor
  · intro h0
    unfold progress_eta
    rw [if_neg (by rw [h0]; exact lt_irrefl 0)]
  · intro htot
    subst htot
    have heta : progress_eta current 0 (progress_speed current elapsed) ≤ 0 := by
      unfold progress_eta
      split
      · rename_i hpos
        unfold pyInt
        have hq : (0 - current) / progress_speed current elapsed ≤ 0 := by
          rw [sub_div, zero_div, zero_sub]
          have := div_nonneg hc (le_of_lt hpos)
          linarith
        have hnum : ((0 - current) / progress_speed current elapsed).num ≤ 0 := by
          by_contra hgt
          push_neg at hgt
          have := Rat.num_pos.mp hgt
          linarith
        have hden : (0 : Int) ≤ (((0 - current) / progress_speed current elapsed).den : Int) := by
          positivity
        have hnn := Int.tdiv_nonneg (a := -((0 - current) / progress_speed current elapsed).num)
          (b := (((0 - current) / progress_speed current elapsed).den : Int)) (by omega) hden
        rw [Int.neg_tdiv] at hnn
        omega
      · exact le_refl 0
    refine ⟨heta, ?_⟩
    rcases lt_or_eq_of_le heta with hlt | heq
    · unfold format_time
      rw [if_pos hlt]
    · rw [heq]
      decide

/-- Witness for the amended C8: 5 bytes in 1 second with unknown total
gives a non-positive computed ETA displayed as `"0s"`; zero elapsed time
gives speed 0 and ETA 0. -/
theorem progress_eta_zero_spec_witness :
    progress_eta 5 0 (progress_speed 5 1) ≤ 0 ∧
    format_time (progress_eta 5 0 (progress_speed 5 1)) = "0s".toList ∧
    progress_eta 7 0 (progress_speed 7 0) = 0 := by
  obtain ⟨-, h2⟩ := progress_eta_zero_spec 5 0 1 (by norm_num)
  obtain ⟨ha, hb⟩ := h2 rfl
  refine ⟨ha, hb, ?_⟩
  exact (progress_eta_zero_spec 7 0 0 (by norm_num)).1 (by unfold progress_speed; norm_num)

/-! ## Claim C6 -/

/-- Claim C6, stated as frozen, is false on the code: when the
kind-specific send fails AND the document fallback also fails, the outer
`except` of `upload_file` returns without running the thumbnail cleanup
(lines 245–249 are only reached when no send raised), so a generated
thumbnail is left behind.  The local file is still deleted by the caller,
and the fallback was attempted exactly once. -/
theorem upload_thumbnail_leak_counterexample :
    (deliverFile "video".toList ⟨true, 0, false, true, false, false⟩).sends =
      [SendKind.video, SendKind.document] ∧
    (deliverFile "video".toList ⟨true, 0, false, true, false, false⟩).uploaded = false ∧
    (deliverFile "video".toList ⟨true, 0, false, true, false, false⟩).localFileDeleted = true ∧
    (deliverFile "video".toList ⟨true, 0, false, true, false, false⟩).genThumbDeleted = false := by
  refine ⟨?_, ?_, ?_, ?_⟩ <;> decide

/-- Claim C6 (amended): for an existing file, a failing kind-specific
send (video, audio, or photo under 10 MB) falls back exactly once to the
document shape, and a succeeding specific send never attempts the
document shape; the local file is always deleted after the attempt; the
generated (non-user-supplied) thumbnail is deleted exactly when the
upload attempt reported success — when both the specific shape and the
document fallback fail, the generated thumbnail is leaked. -/
theorem deliverFile_spec (ftype : List Char) (env : UploadEnv)
    (hf : env.fileExists = true) :
    (deliverFile ftype env).localFileDeleted = true ∧
    (ftype = "video".toList ∨ ftype = "audio".toList ∨
      (ftype = "image".toList ∧ env.fileSize < 10 * 1024 * 1024) →
      (env.sendSpecificOk = false →
        (deliverFile ftype env).sends.count SendKind.document = 1) ∧
      (env.sendSpecificOk = true →
        (deliverFile ftype env).sends.count SendKind.document = 0)) ∧
    ((deliverFile ftype env).genThumbDeleted =
      ((deliverFile ftype env).uploaded && (!env.customThumbValid && env.thumbGenerated))) := by
  obtain ⟨fe, fs, ctv, tg, sok, dok⟩ := env
  simp only at hf
  subst hf
  refine ⟨rfl, ?_, ?_⟩
  · intro hft
    constructor
    · intro hsok
      simp only at hsok
      subst hsok
      rcases hft with h | h | ⟨h, hsz⟩
      · subst h
        cases dok <;> simp [deliverFile, upload_file]
      · subst h
        cases dok <;> simp [deliverFile, upload_file]
      · subst h
        cases dok <;> simp [deliverFile, upload_file, hsz]
    · intro hsok
      simp only at hsok
      subst hsok
      rcases hft with h | h | ⟨h, hsz⟩
      · subst h
        simp [deliverFile, upload_file]
      · subst h
        simp [deliverFile, upload_file]
      · subst h
        simp [deliverFile, upload_file, hsz]
  · unfold deliverFile upload_file
    split_ifs <;> cases sok <;> cases dok <;> simp

/-- Witness for the amended C6: a video whose specific send fails but
whose document fallback succeeds — one document attempt, file deleted,
generated thumbnail deleted because the attempt succeeded. -/
theorem deliverFile_spec_witness :
    (deliverFile "video".toList ⟨true, 0, false, true, false, true⟩).localFileDeleted = true ∧
    (deliverFile "video".toList ⟨true, 0, false, true, false, true⟩).sends.count
      SendKind.document = 1 ∧
    (deliverFile "video".toList ⟨true, 0, false, true, false, true⟩).genThumbDeleted =
      ((deliverFile "video".toList ⟨true, 0, false, true, false, true⟩).uploaded &&
        (!false && true)) := by
  obtain ⟨h1, h2, h3⟩ := deliverFile_spec "video".toList ⟨true, 0, false, true, false, true⟩ rfl
  exact ⟨h1, (h2 (Or.inl rfl)).1 rfl, h3⟩

/-! ## Claim C2 -/

/-- Claim C2, stated as frozen, is false on the code: `download_file_sync`
contains no content-type or magic-byte check at all.  A mocked response
with status 200, content type `text/html`, and an HTML body is saved to
the destination directory and reported as a success; nothing is deleted. -/
theorem download_html_counterexample :
    htmlErrorIndicated ⟨200, "text/html".toList, [], "<html>Error</html>".toList⟩ = true ∧
    (download_file_sync ⟨200, "text/html".toList, [], "<html>Error</html>".toList⟩
      "https://host/v".toList "video".toList []).1 = DlOutcome.ok "video".toList ∧
    (download_file_sync ⟨200, "text/html".toList, [], "<html>Error</html>".toList⟩
      "https://host/v".toList "video".toList []).2 = [("video".toList, 18)] := by
  refine ⟨?_, ?_, ?_⟩ <;> decide

/-- Claim C2 (amended): `download_file_sync` performs no HTML detection —
a retrieval reports success exactly when the HTTP status is 200 or 206
and the written body is non-empty, HTML or not; whenever the status is
200/206 a file is written and kept (on an empty body the zero-byte file
remains behind the "Empty file" failure); on any other status no file is
written. -/
theorem download_no_html_check (resp : HttpResponse) (url fallbackName : List Char)
    (dir : List (List Char × Nat)) :
    ((download_file_sync resp url fallbackName dir).1.isOk = true ↔
      ((resp.status = 200 ∨ resp.status = 206) ∧ 0 < resp.body.length)) ∧
    ((resp.status = 200 ∨ resp.status = 206) →
      (download_file_sync resp url fallbackName dir).2.length = dir.length + 1) ∧
    (¬ (resp.status = 200 ∨ resp.status = 206) →
      (download_file_sync resp url fallbackName dir).2 = dir) := by
  unfold download_file_sync
  by_cases hst : resp.status ≠ 200 ∧ resp.status ≠ 206
  · rw [if_pos hst]
    refine ⟨⟨fun h => Bool.noConfusion h, fun hcon => ?_⟩, fun h => ?_, fun _ => rfl⟩
    · cases hcon.1 with
      | inl h => exact absurd h hst.1
      | inr h => exact absurd h hst.2
    · cases h with
      | inl h => exact absurd h hst.1
      | inr h => exact absurd h hst.2
  · rw [if_neg hst]
    have hor : resp.status = 200 ∨ resp.status = 206 := by
      rcases not_and_or.mp hst with h | h
      · exact Or.inl (not_not.mp h)
      · exact Or.inr (not_not.mp h)
    refine ⟨?_, ?_, fun h => absurd hor h⟩
    · by_cases hb : 0 < resp.body.length
      · rw [if_pos hb]
        exact ⟨fun _ => ⟨hor, hb⟩, fun _ => rfl⟩
      · rw [if_neg hb]
        exact ⟨fun h => Bool.noConfusion h, fun hcon => absurd hcon.2 hb⟩
    · intro _
      by_cases hb : 0 < resp.body.length
      · rw [if_pos hb]
        simp
      · rw [if_neg hb]
        simp

/-- Witness for the amended C2: a 200 response with a 3-byte body is a
success and adds one file; a 404 response leaves the directory unchanged. -/
theorem download_no_html_check_witness :
    ((download_file_sync ⟨200, [], [], "abc".toList⟩ [] "f.bin".toList []).1.isOk = true) ∧
    (download_file_sync ⟨200, [], [], "abc".toList⟩ [] "f.bin".toList []).2.length = 1 ∧
    (download_file_sync ⟨404, [], [], "abc".toList⟩ [] "f.bin".toList []).2 = [] := by
  obtain ⟨h1, h2, -⟩ := download_no_html_check ⟨200, [], [], "abc".toList⟩ [] "f.bin".toList []
  obtain ⟨-, -, h3⟩ := download_no_html_check ⟨404, [], [], "abc".toList⟩ [] "f.bin".toList []
  exact ⟨h1.mpr ⟨Or.inl rfl, by decide⟩, h2 (Or.inl rfl), h3 (by decide)⟩

/-! ## Claim C7: helper lemmas about the collision counter -/

theorem decVal_append_digit (s : List Char) (c : Char) :
    decVal (s ++ [c]) = 10 * decVal s + (c.toNat - 48) := by
  unfold decVal
  rw [List.foldl_append]
  rfl

theorem digitChar_toNat_sub (k : Nat) (h : k < 10) :
    (Nat.digitChar k).toNat - 48 = k := by
  interval_cases k <;> decide

theorem decVal_natDecAux : ∀ (fuel n : Nat), n < fuel →
    decVal (natDecAux fuel n) = n := by
  intro fuel
  induction fuel with
  | zero => intro n h; omega
  | succ f ih =>
    intro n h
    simp only [natDecAux]
    by_cases h10 : n < 10
    · rw [if_pos h10]
      interval_cases n <;> decide
    · rw [if_neg h10, decVal_append_digit, ih (n / 10) (by omega),
        digitChar_toNat_sub (n % 10) (by omega)]
      omega

theorem decVal_natDec (n : Nat) : decVal (natDec n) = n := by
  unfold natDec
  exact decVal_natDecAux (n + 1) n (Nat.lt_succ_self n)

theorem natDec_injective : Function.Injective natDec := by
  intro a b h
  have ha := decVal_natDec a
  rw [h, decVal_natDec] at ha
  omega

theorem dropWhile_cons_head_false {α : Type} (p : α → Bool) :
    ∀ (l : List α) (c : α) (r : List α), l.dropWhile p = c :: r → p c = false := by
  intro l
  induction l with
  | nil => intro c r h; simp at h
  | cons a t ih =>
    intro c r h
    rw [List.dropWhile_cons] at h
    split at h
    · exact ih c r h
    · rename_i hpa
      injection h with h1 _
      subst h1
      simpa using hpa

theorem splitext_append (s : List Char) :
    (splitext s).1 ++ (splitext s).2 = s := by
  unfold splitext
  rcases hd : s.reverse.dropWhile (· ≠ '.') with _ | ⟨c, revRest⟩
  · simp
  · have hsplit : s.reverse.takeWhile (· ≠ '.') ++ (c :: revRest) = s.reverse := by
      rw [← hd]
      exact List.takeWhile_append_dropWhile _ _
    have hc : c = '.' := by
      have := dropWhile_cons_head_false _ _ _ _ hd
      simpa using this
    by_cases hany : revRest.any (· ≠ '.')
    · dsimp only
      rw [if_pos hany]
      have hrev := congrArg List.reverse hsplit
      simp only [List.reverse_append, List.reverse_cons, List.reverse_reverse] at hrev
      subst hc
      simpa [List.append_assoc] using hrev
    · dsimp only
      rw [if_neg hany]
      simp

theorem splitextPath_append (s : List Char) :
    (splitextPath s).1 ++ (splitextPath s).2 = s := by
  unfold splitextPath
  simp only []
  rw [List.append_assoc, splitext_append]
  have h1 : s.reverse.takeWhile (· ≠ '/') ++ s.reverse.dropWhile (· ≠ '/') = s.reverse :=
    List.takeWhile_append_dropWhile _ _
  have h2 := congrArg List.reverse h1
  simp only [List.reverse_append, List.reverse_reverse] at h2
  exact h2

theorem firstFree_mem_spec (names : List (List Char)) :
    ∀ (cs : List (List Char)) (c : List Char), firstFree names cs = some c →
      c ∉ names ∧ ∃ pre post, cs = pre ++ c :: post ∧ ∀ b ∈ pre, b ∈ names := by
  intro cs
  induction cs with
  | nil => intro c h; simp [firstFree] at h
  | cons d ds ih =>
    intro c h
    simp only [firstFree] at h
    split at h
    · rename_i hd
      obtain ⟨h1, pre, post, h2, h3⟩ := ih c h
      refine ⟨h1, d :: pre, post, by rw [h2]; rfl, ?_⟩
      intro b hb
      rcases List.mem_cons.mp hb with hb | hb
      · exact hb ▸ hd
      · exact h3 b hb
    · rename_i hd
      injection h with h1
      subst h1
      exact ⟨hd, [], ds, rfl, by simp⟩

theorem firstFree_isSome (names : List (List Char)) :
    ∀ (cs : List (List Char)), (∃ c ∈ cs, c ∉ names) →
      ∃ c, firstFree names cs = some c := by
  intro cs
  induction cs with
  | nil => intro h; simp at h
  | cons d ds ih =>
    intro h
    simp only [firstFree]
    split
    · rename_i hd
      obtain ⟨c, hc1, hc2⟩ := h
      rcases List.mem_cons.mp hc1 with he | he
      · exact absurd (he ▸ hd) hc2
      · exact ih ⟨c, he, hc2⟩
    · exact ⟨d, rfl⟩

theorem exists_free_of_nodup_of_longer {α : Type} [DecidableEq α] :
    ∀ (cs names : List α), cs.Nodup → names.length < cs.length →
      ∃ c ∈ cs, c ∉ names := by
  intro cs
  induction cs with
  | nil => intro names _ h; simp at h
  | cons d ds ih =>
    intro names hnd hlen
    by_cases hd : d ∈ names
    · have herase := List.length_erase_of_mem hd
      obtain ⟨c, hc1, hc2⟩ := ih (names.erase d) (List.Nodup.of_cons hnd)
        (by
          rw [herase]
          have hpos := List.length_pos_of_mem hd
          simp only [List.length_cons] at hlen
          omega)
      refine ⟨c, List.mem_cons_of_mem _ hc1, fun hcn => hc2 ?_⟩
      have hcd : c ≠ d := fun he => (List.nodup_cons.mp hnd).1 (he ▸ hc1)
      exact (List.mem_erase_of_ne hcd).mpr hcn
    · exact ⟨d, List.mem_cons_self d ds, hd⟩

theorem collisionCandidates_nodup (count : Nat) (base ext : List Char) :
    (collisionCandidates count base ext).Nodup := by
  unfold collisionCandidates
  rw [List.nodup_cons]
  constructor
  · intro hmem
    simp only [List.mem_map, List.mem_range] at hmem
    obtain ⟨k, -, hk⟩ := hmem
    have h1 := List.append_cancel_left hk
    have h2 := congrArg List.length h1
    simp only [List.length_cons, List.length_append] at h2
    omega
  · refine List.Nodup.map ?_ (List.nodup_range count)
    intro k1 k2 h
    simp only [] at h
    have h1 := List.append_cancel_left h
    injection h1 with hh h2
    have h3 := List.append_cancel_right h2
    have h4 := natDec_injective h3
    omega

theorem uniqueFilename_spec (names : List (List Char)) (fname : List Char) :
    ∃ pre post,
      collisionCandidates (names.length + 1) (splitextPath fname).1 (splitextPath fname).2 =
        pre ++ (uniqueFilename names fname) :: post ∧
      (∀ b ∈ pre, b ∈ names) ∧
      uniqueFilename names fname ∉ names := by
  have hnd := collisionCandidates_nodup (names.length + 1)
    (splitextPath fname).1 (splitextPath fname).2
  have hlen : names.length <
      (collisionCandidates (names.length + 1) (splitextPath fname).1
        (splitextPath fname).2).length := by
    simp only [collisionCandidates, List.length_cons, List.length_map, List.length_range]
    omega
  obtain ⟨c, hcf⟩ := firstFree_isSome names _
    (exists_free_of_nodup_of_longer _ names hnd hlen)
  obtain ⟨h1, pre, post, h2, h3⟩ := firstFree_mem_spec names _ c hcf
  have hu : uniqueFilename names fname = c := by
    unfold uniqueFilename
    show (firstFree names (collisionCandidates (names.length + 1)
      (splitextPath fname).1 (splitextPath fname).2)).getD fname = c
    rw [hcf]
    rfl
  exact ⟨pre, post, by rw [hu, ← h2], fun b hb => h3 b hb, hu ▸ h1⟩

/-- Claim C7 (confirmed): a download whose response carries
`Content-Disposition: filename="a.mp4"` (any 200 status, non-empty body)
is saved under the name `a.mp4`; when that name already exists in the
destination directory the counter suffix is applied — the candidates
`a.mp4, a_1.mp4, a_2.mp4, …` are tried in order and the first one not
present is used, so the saved name never collides, and it is exactly
`a.mp4` when there is no collision. -/
theorem content_disposition_filename (resp : HttpResponse) (url : List Char)
    (dir : List (List Char × Nat))
    (hcd : resp.contentDisposition = "filename=\"a.mp4\"".toList)
    (hst : resp.status = 200) (hb : 0 < resp.body.length) :
    ∃ saved pre post,
      download_file_sync resp url "downloading".toList dir =
        (DlOutcome.ok saved, dir ++ [(saved, resp.body.length)]) ∧
      collisionCandidates (dir.length + 1) "a".toList ".mp4".toList =
        pre ++ saved :: post ∧
      (∀ b ∈ pre, b ∈ dir.map Prod.fst) ∧
      saved ∉ dir.map Prod.fst ∧
      ("a.mp4".toList ∉ dir.map Prod.fst → saved = "a.mp4".toList) := by
  obtain ⟨st, ct, cd, body⟩ := resp
  simp only at hcd hst hb
  subst hcd
  subst hst
  refine ⟨uniqueFilename (dir.map Prod.fst) "a.mp4".toList, ?_⟩
  have hdl : download_file_sync ⟨200, ct, "filename=\"a.mp4\"".toList, body⟩ url
      "downloading".toList dir =
      (DlOutcome.ok (uniqueFilename (dir.map Prod.fst) "a.mp4".toList),
       dir ++ [(uniqueFilename (dir.map Prod.fst) "a.mp4".toList, body.length)]) := by
    unfold download_file_sync
    rw [if_neg (by norm_num), if_pos hb]
    rfl
  obtain ⟨pre, post, h2, h3, h4⟩ := uniqueFilename_spec (dir.map Prod.fst) "a.mp4".toList
  have h2' : collisionCandidates (dir.length + 1) "a".toList ".mp4".toList =
      pre ++ (uniqueFilename (dir.map Prod.fst) "a.mp4".toList) :: post := by
    have hl : (dir.map Prod.fst).length = dir.length := List.length_map _ _
    rw [← hl]
    exact h2
  refine ⟨pre, post, hdl, h2', h3, h4, ?_⟩
  intro hfree
  unfold uniqueFilename collisionCandidates
  show (firstFree (dir.map Prod.fst)
      ("a.mp4".toList :: (List.range ((dir.map Prod.fst).length + 1)).map
        (fun k => "a".toList ++ '_' :: (natDec (k + 1) ++ ".mp4".toList)))).getD
      "a.mp4".toList = "a.mp4".toList
  simp only [firstFree]
  rw [if_neg hfree]
  rfl

/-- Witness for C7: with `a.mp4` already present (3 bytes), the
response is saved as the next free candidate, and all conclusions of the
theorem hold at this concrete input. -/
theorem content_disposition_filename_witness :
    ∃ saved pre post,
      download_file_sync ⟨200, [], "filename=\"a.mp4\"".toList, "xyz".toList⟩ []
        "downloading".toList [("a.mp4".toList, 3)] =
        (DlOutcome.ok saved, [("a.mp4".toList, 3)] ++ [(saved, ("xyz".toList).length)]) ∧
      collisionCandidates 2 "a".toList ".mp4".toList = pre ++ saved :: post ∧
      (∀ b ∈ pre, b ∈ [("a.mp4".toList, 3)].map Prod.fst) ∧
      saved ∉ [("a.mp4".toList, 3)].map Prod.fst ∧
      ("a.mp4".toList ∉ [("a.mp4".toList, 3)].map Prod.fst → saved = "a.mp4".toList) :=
  content_disposition_filename ⟨200, [], "filename=\"a.mp4\"".toList, "xyz".toList⟩ []
    [("a.mp4".toList, 3)] rfl rfl (by decide)

/-! ## Claim C9: helper lemmas about `pyStrip` -/

theorem pyStrip_subset (p : Char → Bool) (l : List Char) :
    ∀ c ∈ pyStrip p l, c ∈ l := by
  intro c hc
  unfold pyStrip at hc
  rw [List.mem_reverse] at hc
  have h1 : c ∈ (l.dropWhile p).reverse := (List.dropWhile_sublist p).subset hc
  rw [List.mem_reverse] at h1
  exact (List.dropWhile_sublist p).subset h1

theorem head?_dropWhile_false (p : Char → Bool) (l : List Char) (c : Char)
    (h : (l.dropWhile p).head? = some c) : p c = false := by
  rcases hd : l.dropWhile p with _ | ⟨a, r⟩
  · rw [hd] at h
    simp at h
  · rw [hd] at h
    simp at h
    subst h
    exact dropWhile_cons_head_false p l a r hd

theorem getLast?_dropWhile_of_ne_nil (p : Char → Bool) :
    ∀ (l : List Char), l.dropWhile p ≠ [] →
      (l.dropWhile p).getLast? = l.getLast? := by
  intro l
  induction l with
  | nil => intro h; simp at h
  | cons a t ih =>
    intro h
    rw [List.dropWhile_cons] at h ⊢
    by_cases hp : p a = true
    · rw [if_pos hp] at h ⊢
      have ht : t ≠ [] := by
        intro he
        subst he
        simp [List.dropWhile] at h
      rcases t with _ | ⟨b, t'⟩
      · exact absurd rfl ht
      · rw [ih h, List.getLast?_cons_cons]
    · rw [if_neg hp]

theorem pyStrip_getLast?_false (p : Char → Bool) (l : List Char) (c : Char)
    (h : (pyStrip p l).getLast? = some c) : p c = false := by
  unfold pyStrip at h
  rw [List.getLast?_reverse] at h
  exact head?_dropWhile_false p _ c h

theorem pyStrip_head?_false (p : Char → Bool) (l : List Char) (c : Char)
    (h : (pyStrip p l).head? = some c) : p c = false := by
  unfold pyStrip at h
  rw [List.head?_reverse] at h
  rcases hB : (l.dropWhile p).reverse.dropWhile p with _ | ⟨a, r⟩
  · rw [hB] at h
    simp at h
  · rw [getLast?_dropWhile_of_ne_nil p _ (by rw [hB]; simp)] at h
    rw [List.getLast?_reverse] at h
    exact head?_dropWhile_false p _ c h

theorem mem_replaced_not_invalid (l : List Char) :
    ∀ c ∈ l.map (fun c => if isInvalidFilenameChar c then '_' else c),
      isInvalidFilenameChar c = false := by
  intro c hc
  rw [List.mem_map] at hc
  obtain ⟨a, -, ha⟩ := hc
  by_cases hi : isInvalidFilenameChar a = true
  · rw [if_pos hi] at ha
    rw [← ha]
    decide
  · rw [if_neg hi] at ha
    rw [← ha]
    simpa using hi

theorem mem_strippedName_not_invalid (s : List Char) :
    ∀ c ∈ strippedName s, isInvalidFilenameChar c = false := by
  intro c hc
  exact mem_replaced_not_invalid _ c (pyStrip_subset _ _ c hc)

theorem sanitize_filename_eq (s : List Char) (hs : ¬ s.isEmpty = true) :
    sanitize_filename s =
      if (if 200 < (strippedName s).length then
            pySliceTo (splitext (strippedName s)).1
              (200 - ((splitext (strippedName s)).2.length : Int)) ++
              (splitext (strippedName s)).2
          else strippedName s).isEmpty = true
      then "downloaded_file".toList
      else (if 200 < (strippedName s).length then
            pySliceTo (splitext (strippedName s)).1
              (200 - ((splitext (strippedName s)).2.length : Int)) ++
              (splitext (strippedName s)).2
          else strippedName s) := by
  unfold sanitize_filename
  rw [if_neg hs]
  rfl

/-! ## Claim C9 -/

/-- Claim C9, stated as frozen, is false on the code: the truncation of
names longer than 200 characters runs after the strip step and can
reintroduce forbidden edge characters.  199 `a`s, a space, and 50 `b`s
(no dot) are truncated to 199 `a`s plus a trailing space; and `ab.`
followed by 240 `c`s is truncated to the bare extension, which starts
with a dot. -/
theorem sanitize_filename_counterexample :
    (sanitize_filename (List.replicate 199 'a' ++ ' ' :: List.replicate 50 'b')).getLast? =
      some ' ' ∧
    (sanitize_filename ("ab.".toList ++ List.replicate 240 'c')).head? = some '.' := by
  constructor <;> decide

/-- Claim C9 (amended): `sanitize_filename` always returns a non-empty
name containing none of the forbidden characters, and the constant
`downloaded_file` for empty input; when the cleaned, stripped name is at
most 200 characters it is returned verbatim (or replaced by the constant
when empty), so the result is at most 200 characters and has no leading
or trailing spaces, dots, or other stripped characters.  Longer names are
truncated around the `splitext` extension, which can leave a stripped
character at an edge (see the counterexample). -/
theorem sanitize_filename_spec (s : List Char) :
    sanitize_filename s ≠ [] ∧
    (∀ c ∈ sanitize_filename s, isInvalidFilenameChar c = false) ∧
    (s = [] → sanitize_filename s = "downloaded_file".toList) ∧
    ((strippedName s).length ≤ 200 →
      sanitize_filename s =
        (if (strippedName s).isEmpty = true then "downloaded_file".toList
         else strippedName s) ∧
      (sanitize_filename s).length ≤ 200 ∧
      (∀ c, (sanitize_filename s).head? = some c → isStripChar c = false) ∧
      (∀ c, (sanitize_filename s).getLast? = some c → isStripChar c = false)) := by
  by_cases hs : s.isEmpty = true
  · have hnil : s = [] := by simpa using hs
    subst hnil
    refine ⟨by decide, by decide, fun _ => rfl, fun _ => ⟨by decide, by decide, ?_, ?_⟩⟩
    · intro c h
      have h2 : some 'd' = some c := h
      injection h2 with h3
      rw [← h3]
      decide
    · intro c h
      have h2 : some 'e' = some c := h
      injection h2 with h3
      rw [← h3]
      decide
  · have heq := sanitize_filename_eq s hs
    by_cases h200 : 200 < (strippedName s).length
    · rw [if_pos h200] at heq
      have hmem : ∀ c ∈ pySliceTo (splitext (strippedName s)).1
          (200 - ((splitext (strippedName s)).2.length : Int)) ++
          (splitext (strippedName s)).2, isInvalidFilenameChar c = false := by
        intro c hc
        have hct : c ∈ strippedName s := by
          rw [← splitext_append (strippedName s)]
          rcases List.mem_append.mp hc with h | h
          · refine List.mem_append.mpr (Or.inl ?_)
            unfold pySliceTo at h
            split at h
            · exact List.take_subset _ _ h
            · exact List.take_subset _ _ h
          · exact List.mem_append.mpr (Or.inr h)
        exact mem_strippedName_not_invalid s c hct
      rw [heq]
      refine ⟨?_, ?_, fun he => absurd he (by simpa using hs), fun hle => absurd h200 (by omega)⟩
      · split
        · decide
        · rename_i hne
          intro he
          rw [he] at hne
          simp at hne
      · intro c hc
        split at hc
        · have hall : ∀ x ∈ "downloaded_file".toList, isInvalidFilenameChar x = false := by
            decide
          exact hall c hc
        · exact hmem c hc
    · rw [if_neg h200] at heq
      rw [heq]
      refine ⟨?_, ?_, fun he => absurd he (by simpa using hs), fun hle => ⟨rfl, ?_, ?_, ?_⟩⟩
      · split
        · decide
        · rename_i hne
          intro he
          rw [he] at hne
          simp at hne
      · intro c hc
        split at hc
        · have hall : ∀ x ∈ "downloaded_file".toList, isInvalidFilenameChar x = false := by
            decide
          exact hall c hc
        · exact mem_strippedName_not_invalid s c hc
      · split
        · decide
        · omega
      · intro c hc
        split at hc
        · have h2 : some 'd' = some c := hc
          injection h2 with h3
          rw [← h3]
          decide
        · exact pyStrip_head?_false _ _ c hc
      · intro c hc
        split at hc
        · have h2 : some 'e' = some c := hc
          injection h2 with h3
          rw [← h3]
          decide
        · exact pyStrip_getLast?_false _ _ c hc

/-- Witness for the amended C9 at the concrete input `" my:file.mp4 "`:
the result is the cleaned name with no forbidden or edge characters. -/
theorem sanitize_filename_spec_witness :
    sanitize_filename " my:file.mp4 ".toList ≠ [] ∧
    (∀ c, (sanitize_filename " my:file.mp4 ".toList).head? = some c →
      isStripChar c = false) ∧
    sanitize_filename [] = "downloaded_file".toList := by
  obtain ⟨h1, -, -, h4⟩ := sanitize_filename_spec " my:file.mp4 ".toList
  obtain ⟨-, -, h5, -⟩ := h4 (by decide)
  exact ⟨h1, h5, (sanitize_filename_spec []).2.2.1 rfl⟩

/-! ## Claim C10: helper lemmas about surl extraction -/

theorem findSurlParam_word : ∀ (u cap : List Char), findSurlParam u = some cap →
    ∀ c ∈ cap, isWordChar c = true := by
  intro u
  induction u with
  | nil => intro cap h; simp [findSurlParam] at h
  | cons a rest ih =>
    intro cap h
    simp only [findSurlParam] at h
    split at h
    · split at h
      · exact ih cap h
      · injection h with h1
        subst h1
        intro c hc
        exact List.mem_takeWhile_imp hc
    · exact ih cap h

theorem trySlashS_word (s cap : List Char) (h : trySlashS s = some cap) :
    ∀ c ∈ cap, isWordChar c = true := by
  simp only [trySlashS] at h
  split at h
  · split at h
    · injection h with h1
      subst h1
      intro c hc
      simp at hc
      subst hc
      decide
    · injection h with h1
      subst h1
      intro c hc
      exact List.mem_takeWhile_imp hc
  · split at h
    · exact absurd h (by simp)
    · injection h with h1
      subst h1
      intro c hc
      exact List.mem_takeWhile_imp hc
  · exact absurd h (by simp)

theorem findSlashS_word : ∀ (u cap : List Char), findSlashS u = some cap →
    ∀ c ∈ cap, isWordChar c = true := by
  intro u
  induction u with
  | nil => intro cap h; simp [findSlashS] at h
  | cons a rest ih =>
    intro cap h
    simp only [findSlashS] at h
    rcases ht : trySlashS (a :: rest) with _ | x
    · rw [ht] at h
      simp only [Option.orElse] at h
      exact ih cap h
    · rw [ht] at h
      simp only [Option.orElse] at h
      injection h with h1
      subst h1
      exact trySlashS_word (a :: rest) _ ht

theorem findLitThenWord_word (lit : List Char) :
    ∀ (u cap : List Char), findLitThenWord lit u = some cap →
      ∀ c ∈ cap, isWordChar c = true := by
  intro u
  induction u with
  | nil => intro cap h; simp [findLitThenWord] at h
  | cons a rest ih =>
    intro cap h
    simp only [findLitThenWord] at h
    split at h
    · split at h
      · exact ih cap h
      · injection h with h1
        subst h1
        intro c hc
        exact List.mem_takeWhile_imp hc
    · exact ih cap h

theorem findSharing_word : ∀ (u cap : List Char), findSharing u = some cap →
    ∀ c ∈ cap, isWordChar c = true := by
  intro u
  induction u with
  | nil => intro cap h; simp [findSharing] at h
  | cons a rest ih =>
    intro cap h
    simp only [findSharing] at h
    split at h
    · split at h
      · exact ih cap h
      · injection h with h1
        subst h1
        intro c hc
        exact List.mem_takeWhile_imp hc
    · split at h
      · split at h
        · exact ih cap h
        · injection h with h1
          subst h1
          intro c hc
          exact List.mem_takeWhile_imp hc
      · exact ih cap h

theorem findLongCode_word : ∀ (u cap : List Char), findLongCode u = some cap →
    ∀ c ∈ cap, isWordChar c = true := by
  intro u
  induction u with
  | nil => intro cap h; simp [findLongCode] at h
  | cons a rest ih =>
    intro cap h
    simp only [findLongCode] at h
    split at h
    · split at h
      · injection h with h1
        subst h1
        intro c hc
        exact List.mem_takeWhile_imp hc
      · exact ih cap h
    · exact ih cap h

theorem extract_terabox_surl_word (u s : List Char)
    (h : extract_terabox_surl u = some s) : ∀ c ∈ s, isWordChar c = true := by
  unfold extract_terabox_surl at h
  rcases h1 : findSurlParam u with _ | c1
  · rw [h1] at h
    simp only [Option.orElse] at h
    rcases h2 : findSlashS u with _ | c2
    · rw [h2] at h
      simp only [Option.orElse] at h
      rcases h3 : findLitThenWord "tbx.to/".toList u with _ | c3
      · rw [h3] at h
        simp only [Option.orElse] at h
        rcases h4 : findLitThenWord "terabox.link/".toList u with _ | c4
        · rw [h4] at h
          simp only [Option.orElse] at h
          rcases h5 : findSharing u with _ | c5
          · rw [h5] at h
            simp only [Option.orElse] at h
            rcases h6 : findLitThenWord "/wap/share/filelist?surl=".toList u with _ | c6
            · rw [h6] at h
              simp only [Option.orElse] at h
              exact findLongCode_word u s h
            · rw [h6] at h
              simp only [Option.orElse] at h
              injection h with hh
              subst hh
              exact findLitThenWord_word _ u _ h6
          · rw [h5] at h
            simp only [Option.orElse] at h
            injection h with hh
            subst hh
            exact findSharing_word u _ h5
        · rw [h4] at h
          simp only [Option.orElse] at h
          injection h with hh
          subst hh
          exact findLitThenWord_word _ u _ h4
      · rw [h3] at h
        simp only [Option.orElse] at h
        injection h with hh
        subst hh
        exact findLitThenWord_word _ u _ h3
    · rw [h2] at h
      simp only [Option.orElse] at h
      injection h with hh
      subst hh
      exact findSlashS_word u _ h2
  · rw [h1] at h
    simp only [Option.orElse] at h
    injection h with hh
    subst hh
    exact findSurlParam_word u _ h1

theorem word_not_mark (x : Char) (h : isWordChar x = true) : x ≠ '?' ∧ x ≠ '&' := by
  constructor
  · rintro rfl
    simp [isWordChar] at h
  · rintro rfl
    simp [isWordChar] at h

theorem findSurlParam_none_of_no_marks : ∀ (u : List Char),
    (∀ x ∈ u, x ≠ '?' ∧ x ≠ '&') → findSurlParam u = none := by
  intro u
  induction u with
  | nil => intro h; simp [findSurlParam]
  | cons a rest ih =>
    intro h
    simp only [findSurlParam]
    rw [if_neg]
    · exact ih fun x hx => h x (List.mem_cons_of_mem a hx)
    · have ha := h a (List.mem_cons_self a rest)
      simp [ha.1, ha.2]

theorem findSlashS_canonical (c : List Char) (hne : c ≠ [])
    (hw : ∀ x ∈ c, isWordChar x = true) :
    findSlashS ("https://www.terabox.com/s/1".toList ++ c) = some c := by
  have htw : c.takeWhile isWordChar = c := List.takeWhile_eq_self_iff.mpr hw
  rw [show findSlashS ("https://www.terabox.com/s/1".toList ++ c) =
      (if (c.takeWhile isWordChar).isEmpty = true then some ['1']
       else some (c.takeWhile isWordChar)).orElse
        (fun _ => findSlashS ('s' :: '/' :: '1' :: c)) from rfl]
  rw [htw]
  rw [if_neg (by simp [hne])]
  rfl

theorem extract_terabox_surl_canonical (c : List Char) (hne : c ≠ [])
    (hw : ∀ x ∈ c, isWordChar x = true) :
    extract_terabox_surl ("https://www.terabox.com/s/1".toList ++ c) = some c := by
  have hp1 : findSurlParam ("https://www.terabox.com/s/1".toList ++ c) = none := by
    apply findSurlParam_none_of_no_marks
    intro x hx
    rcases List.mem_append.mp hx with h | h
    · have hall : ∀ y ∈ "https://www.terabox.com/s/1".toList, y ≠ '?' ∧ y ≠ '&' := by
        decide
      exact hall x h
    · exact word_not_mark x (hw x h)
  unfold extract_terabox_surl
  rw [hp1]
  simp only [Option.orElse]
  rw [findSlashS_canonical c hne hw]

theorem cleanSurl_subset (s : List Char) : ∀ c ∈ cleanSurl s, c ∈ s := by
  intro c hc
  unfold cleanSurl at hc
  split at hc
  · exact (List.dropWhile_sublist _).subset hc
  · exact hc

theorem cleanSurl_idem (s : List Char) : cleanSurl (cleanSurl s) = cleanSurl s := by
  by_cases h20 : 20 < s.length
  · have h1 : cleanSurl s = s.dropWhile (· = '1') := by
      unfold cleanSurl
      rw [if_pos h20]
    rw [h1]
    unfold cleanSurl
    split
    · exact List.dropWhile_idempotent _ _
    · rfl
  · have h1 : cleanSurl s = s := by
      unfold cleanSurl
      rw [if_neg h20]
    rw [h1]
    exact h1

/-! ## Claim C10 -/

/-- Claim C10, stated as frozen, is false on the code: for a URL whose
extracted share code is 21 `'1'` characters, the `lstrip('1')` of
`normalize_terabox_url` empties the code, one pass yields
`https://www.terabox.com/s/1`, and a second pass re-extracts the trailing
`1` as a code, yielding `https://www.terabox.com/s/11` — not idempotent. -/
theorem normalize_terabox_counterexample :
    (extract_terabox_surl
      ("https://terabox.com/a?surl=".toList ++ List.replicate 21 '1')).isSome = true ∧
    normalize_terabox_url (normalize_terabox_url
      ("https://terabox.com/a?surl=".toList ++ List.replicate 21 '1')) ≠
    normalize_terabox_url ("https://terabox.com/a?surl=".toList ++ List.replicate 21 '1') := by
  constructor <;> decide

/-- Claim C10 (amended): for every URL from which a share code `s` is
extracted, the normalized URL has the canonical form
`https://www.terabox.com/s/1<code>` with `<code>` the cleaned code
(`lstrip('1')` applied when the code exceeds 20 characters); and whenever
the cleaned code is non-empty, normalization is idempotent.  When the
extracted code consists of more than 20 `'1'`s the cleaned code is empty
and idempotency fails (see the counterexample). -/
theorem normalize_terabox_idempotent (u s : List Char)
    (he : extract_terabox_surl u = some s) (hcs : cleanSurl s ≠ []) :
    normalize_terabox_url u = "https://www.terabox.com/s/1".toList ++ cleanSurl s ∧
    normalize_terabox_url (normalize_terabox_url u) = normalize_terabox_url u := by
  have h1 : normalize_terabox_url u =
      "https://www.terabox.com/s/1".toList ++ cleanSurl s := by
    unfold normalize_terabox_url
    rw [he]
  refine ⟨h1, ?_⟩
  have hw : ∀ x ∈ cleanSurl s, isWordChar x = true :=
    fun x hx => extract_terabox_surl_word u s he x (cleanSurl_subset s x hx)
  have hext := extract_terabox_surl_canonical (cleanSurl s) hcs hw
  rw [h1]
  unfold normalize_terabox_url
  rw [hext]
  show "https://www.terabox.com/s/1".toList ++ cleanSurl (cleanSurl s) =
    "https://www.terabox.com/s/1".toList ++ cleanSurl s
  rw [cleanSurl_idem]

/-- Witness for the amended C10: `https://terabox.com/s/1abc` extracts
the code `abc`, normalizes to the canonical form, and a second
normalization is the identity. -/
theorem normalize_terabox_idempotent_witness :
    normalize_terabox_url "https://terabox.com/s/1abc".toList =
      "https://www.terabox.com/s/1".toList ++ cleanSurl "abc".toList ∧
    normalize_terabox_url (normalize_terabox_url "https://terabox.com/s/1abc".toList) =
      normalize_terabox_url "https://terabox.com/s/1abc".toList :=
  normalize_terabox_idempotent "https://terabox.com/s/1abc".toList "abc".toList
    (by decide) (by decide)
